import Mathlib

/-!
Shallow embedding of the rs-db fixed-slot page-based record store
(src/main.rs) and verification of its specification claims.

Rust strings are modelled as lists of unicode scalar values
(`List Char`); their UTF-8 byte representation is made explicit where
the code manipulates byte lengths (field caps, bincode framing,
char-boundary checks of String::truncate).  Machine integers are
modelled as `Nat` (ids are u32; claims carry explicit bounds where the
width matters).  The backing seekable byte store is a `List Nat` of
bytes.  Rust panics (out-of-bounds indexing, String::truncate off a
char boundary, unwrap of a deserialize error) are modelled as `none` /
a dedicated `crash` outcome, distinct from value-level `Err` results.
-/

/-- PAGE_SIZE constant from the source. -/
def PAGE_SIZE : Nat := 4096

/-- TABLE_MAX_PAGES constant from the source. -/
def TABLE_MAX_PAGES : Nat := 100

/-- COLUMN_USERNAME_SIZE constant from the source. -/
def COLUMN_USERNAME_SIZE : Nat := 32

/-- COLUMN_EMAIL_SIZE constant from the source. -/
def COLUMN_EMAIL_SIZE : Nat := 255

/-- Number of bytes of the UTF-8 encoding of a unicode scalar value
(Rust char::len_utf8). -/
def utf8Len (c : Char) : Nat :=
  if c.toNat < 0x80 then 1
  else if c.toNat < 0x800 then 2
  else if c.toNat < 0x10000 then 3
  else 4

/-- UTF-8 encoding of one unicode scalar value. -/
def utf8Bytes (c : Char) : List Nat :=
  let v := c.toNat
  if v < 0x80 then [v]
  else if v < 0x800 then [0xC0 + v / 0x40, 0x80 + v % 0x40]
  else if v < 0x10000 then
    [0xE0 + v / 0x1000, 0x80 + v / 0x40 % 0x40, 0x80 + v % 0x40]
  else
    [0xF0 + v / 0x40000, 0x80 + v / 0x1000 % 0x40, 0x80 + v / 0x40 % 0x40,
      0x80 + v % 0x40]

/-- Byte length of a Rust string (String::len). -/
def byteLen (s : List Char) : Nat := (s.map utf8Len).sum

/-- UTF-8 byte serialization of a Rust string (String::as_bytes). -/
def strBytes (s : List Char) : List Nat := (s.map utf8Bytes).flatten

/-- A byte is a UTF-8 continuation byte (0x80..0xBF). -/
def contByte (b : Nat) : Prop := 0x80 ≤ b ∧ b < 0xC0

instance (b : Nat) : Decidable (contByte b) := by unfold contByte; infer_instance

/-- UTF-8 decoding of a byte list into unicode scalar values, rejecting
overlong forms, surrogates and values above 0x10FFFF (the validation
performed when bincode deserializes a Rust String). -/
def decodeUtf8 : List Nat → Option (List Char)
  | [] => some []
  | b0 :: r =>
    if b0 < 0x80 then
      (decodeUtf8 r).map (fun cs => Char.ofNat b0 :: cs)
    else if b0 < 0xC2 then none
    else
      match r with
      | [] => none
      | b1 :: r1 =>
        if b0 < 0xE0 then
          if contByte b1 then
            (decodeUtf8 r1).map (fun cs =>
              Char.ofNat ((b0 - 0xC0) * 0x40 + (b1 - 0x80)) :: cs)
          else none
        else
          match r1 with
          | [] => none
          | b2 :: r2 =>
            if b0 < 0xF0 then
              if contByte b1 ∧ contByte b2 ∧ (b0 = 0xE0 → 0xA0 ≤ b1) ∧
                  (b0 = 0xED → b1 < 0xA0) then
                (decodeUtf8 r2).map (fun cs =>
                  Char.ofNat ((b0 - 0xE0) * 0x1000 + (b1 - 0x80) * 0x40 + (b2 - 0x80)) :: cs)
              else none
            else
              match r2 with
              | [] => none
              | b3 :: r3 =>
                if b0 < 0xF5 then
                  if contByte b1 ∧ contByte b2 ∧ contByte b3 ∧ (b0 = 0xF0 → 0x90 ≤ b1) ∧
                      (b0 = 0xF4 → b1 < 0x90) then
                    (decodeUtf8 r3).map (fun cs =>
                      Char.ofNat ((b0 - 0xF0) * 0x40000 + (b1 - 0x80) * 0x1000 +
                        (b2 - 0x80) * 0x40 + (b3 - 0x80)) :: cs)
                  else none
                else none

/-- Little-endian fixed-width byte encoding of an unsigned integer
(bincode fixint encoding of u32 and u64 values). -/
def leBytes : Nat → Nat → List Nat
  | _, 0 => []
  | n, w + 1 => n % 256 :: leBytes (n / 256) w

/-- Value of a little-endian byte list. -/
def leVal : List Nat → Nat
  | [] => 0
  | b :: bs => b + 256 * leVal bs

/-- Read a fixed-width little-endian integer off the front of a byte
list, returning the value and the remaining bytes (bincode reader). -/
def readLE (b : List Nat) (w : Nat) : Option (Nat × List Nat) :=
  if w ≤ b.length then some (leVal (b.take w), b.drop w) else none

/-- The Row struct from the source: u32 id plus two strings. -/
structure Row where
  id : Nat
  username : List Char
  email : List Char
deriving DecidableEq

/-- bincode::serialize of a Row with the default (fixint, little-endian)
configuration: 4-byte id, then each string as an 8-byte byte-length
header followed by its UTF-8 bytes. -/
def serializeRow (r : Row) : List Nat :=
  leBytes r.id 4 ++
    leBytes (byteLen r.username) 8 ++ strBytes r.username ++
    leBytes (byteLen r.email) 8 ++ strBytes r.email

/-- bincode::deserialize of a Row: reads the 4-byte id, then each
string as an 8-byte length followed by that many UTF-8 bytes; fails if
bytes run out or a string is not valid UTF-8; trailing bytes are
ignored (bincode default for deserializing from a slice). -/
def deserializeRow (b : List Nat) : Option Row :=
  match readLE b 4 with
  | none => none
  | some (id, b1) =>
    match readLE b1 8 with
    | none => none
    | some (ulen, b2) =>
      if ulen ≤ b2.length then
        match decodeUtf8 (b2.take ulen) with
        | none => none
        | some uname =>
          match readLE (b2.drop ulen) 8 with
          | none => none
          | some (elen, b3) =>
            if elen ≤ b3.length then
              match decodeUtf8 (b3.take elen) with
              | none => none
              | some email => some ⟨id, uname, email⟩
            else none
      else none

/-- Rust String::truncate(size) at char level: a no-op when the string
has at most size bytes; otherwise keeps the longest prefix of whole
characters fitting in size bytes provided the cut lands exactly on a
character boundary, and panics (modelled as none) when byte position
size falls strictly inside a multi-byte character. -/
def truncChars : List Char → Nat → Option (List Char)
  | [], _ => some []
  | c :: cs, n =>
    if n = 0 then some []
    else if utf8Len c ≤ n then (truncChars cs (n - utf8Len c)).map (fun t => c :: t)
    else none

/-- pad_string from the source: truncate the input to size bytes (may
panic, see truncChars), then right-pad with spaces to exactly size
bytes. -/
def pad_string (input : List Char) (size : Nat) : Option (List Char) :=
  (truncChars input size).map (fun s =>
    s ++ List.replicate (size - byteLen s) ' ')

/-- Row::new from the source: canonicalizes both text fields with
pad_string (none models the String::truncate panic). -/
def Row.new (id : Nat) (username email : List Char) : Option Row :=
  match pad_string username COLUMN_USERNAME_SIZE,
      pad_string email COLUMN_EMAIL_SIZE with
  | some u, some e => some ⟨id, u, e⟩
  | _, _ => none

/-- Unicode scalar values with the White_Space property, the set
trimmed by Rust str::trim via char::is_whitespace. -/
def isRustWhitespace (c : Char) : Bool :=
  [0x09, 0x0A, 0x0B, 0x0C, 0x0D, 0x20, 0x85, 0xA0, 0x1680,
    0x2000, 0x2001, 0x2002, 0x2003, 0x2004, 0x2005, 0x2006, 0x2007,
    0x2008, 0x2009, 0x200A, 0x2028, 0x2029, 0x202F, 0x205F, 0x3000].contains c.toNat

/-- Remove trailing whitespace (Rust str::trim_end). -/
def trimEnd (s : List Char) : List Char :=
  (s.reverse.dropWhile isRustWhitespace).reverse

/-- Rust str::trim: remove leading and trailing whitespace. -/
def rustTrim (s : List Char) : List Char :=
  (trimEnd s).dropWhile isRustWhitespace

/-- The trimmed display view of a Row produced by its Debug
implementation in the source, which prints username.trim() and
email.trim(). -/
def Row.trimmed (r : Row) : Row :=
  ⟨r.id, rustTrim r.username, rustTrim r.email⟩

/-- The spec-level decode operation of the Record Codec: bincode
deserialization followed by trimming of the text fields (the trimming
the source performs when a selected Row is rendered by its Debug
implementation). -/
def decodeRecord (b : List Nat) : Option Row :=
  (deserializeRow b).map Row.trimmed

/-- The Page struct from the source: a PAGE_SIZE byte buffer plus
end_offset, the high-water mark of bytes written this session.
Page::new stores the given buffer with end_offset 0. -/
structure Page where
  bytes : List Nat
  end_offset : Nat
deriving DecidableEq

/-- Page::new from the source. -/
def Page.new (data : List Nat) : Page := ⟨data, 0⟩

/-- In-place slice assignment bytes[offset..offset+data.len()] =
data (copy_from_slice), for offset + data.len() within the buffer. -/
def writeSlice (buf : List Nat) (offset : Nat) (data : List Nat) : List Nat :=
  buf.take offset ++ data ++ buf.drop (offset + data.length)

/-- Page::write from the source: rejects writes past PAGE_SIZE,
otherwise copies the data at the offset and raises end_offset to
max(offset + data.len(), end_offset). -/
def Page.write (p : Page) (offset : Nat) (data : List Nat) :
    Except String Page :=
  if data.length + offset > PAGE_SIZE then
    .error "not enough space to write"
  else
    .ok ⟨writeSlice p.bytes offset data, max (offset + data.length) p.end_offset⟩

/-- One write step of an in-memory session on a Page: a failed write
leaves the page untouched (Page::write only mutates on success). -/
def applyWrite (p : Page) (op : Nat × List Nat) : Page :=
  match p.write op.1 op.2 with
  | .ok p' => p'
  | .error _ => p

/-- Overwrite bytes of a seekable byte store at an absolute offset,
zero-filling any gap when the offset lies past the end of the store
(seek past EOF followed by write). -/
def storeWrite (f : List Nat) (offset : Nat) (data : List Nat) : List Nat :=
  (f.take offset ++ List.replicate (offset - f.length) 0) ++ data ++
    f.drop (offset + data.length)

/-- Read count bytes of a byte store starting at an absolute offset;
a short read at end of store yields only the available bytes, and the
destination buffer retains its zeros for the remainder (the single
file.read call in load_page over a zeroed buffer). -/
def storeRead (f : List Nat) (offset count : Nat) : List Nat :=
  let chunk := (f.drop offset).take count
  chunk ++ List.replicate (count - chunk.length) 0

/-- The Pager struct from the source: the backing byte store, its byte
length observed at open time, and TABLE_MAX_PAGES optional cached
pages. -/
structure Pager where
  file : List Nat
  file_size : Nat
  pages : List (Option Page)
deriving DecidableEq

/-- Pager::new from the source: records the store's current byte
length and starts with no page materialized. -/
def Pager.new (file : List Nat) : Pager :=
  ⟨file, file.length, List.replicate TABLE_MAX_PAGES none⟩

/-- Pager::get_nb_pages from the source: number of pages covering the
byte length observed at open time, plus the remainder bytes in the
last, partial page. -/
def Pager.get_nb_pages (p : Pager) : Nat × Nat :=
  let num_pages := p.file_size / PAGE_SIZE
  let rest := p.file_size % PAGE_SIZE
  (if rest ≠ 0 then num_pages + 1 else num_pages, rest)

/-- Pager::load_page from the source: returns the cached page if
materialized; otherwise builds a zeroed buffer, fills it from the
store only when page_id + 1 < num_pages, caches the page and returns
it.  Indexing pages out of bounds is the Vec index panic, modelled as
none. -/
def Pager.load_page (pg : Pager) (page_id : Nat) : Option (Page × Pager) :=
  if h : page_id < pg.pages.length then
    match pg.pages.get ⟨page_id, h⟩ with
    | some page => some (page, pg)
    | none =>
      let num_pages := pg.get_nb_pages.1
      let data : List Nat :=
        if page_id + 1 < num_pages then
          storeRead pg.file (page_id * PAGE_SIZE) PAGE_SIZE
        else
          List.replicate PAGE_SIZE 0
      let page := Page.new data
      some (page, { pg with pages := pg.pages.set page_id (some page) })
  else none

/-- Pager::flush from the source: if page page_id is materialized,
write bytes [0, end_offset) of its buffer to the store at offset
PAGE_SIZE * page_id; otherwise do nothing. -/
def Pager.flush (pg : Pager) (page_id : Nat) : Pager :=
  match pg.pages.getD page_id none with
  | some page =>
    { pg with file := (storeWrite pg.file (PAGE_SIZE * page_id)
        (page.bytes.take page.end_offset)) }
  | none => pg

/-- Drop for Pager from the source: flush every page index in
ascending order; the resulting backing store is what persists. -/
def Pager.teardown (pg : Pager) : List Nat :=
  ((List.range pg.pages.length).foldl Pager.flush pg).file

/-- Outcome of a Table operation: a value, a value-level error message
(Rust Err(&str)), or a process panic. -/
inductive Outcome (α : Type) where
  | ok : α → Outcome α
  | err : String → Outcome α
  | crash : Outcome α
deriving DecidableEq

/-- The fixed row byte size computed in Table::new by measuring
bincode::serialized_size of Row::new(0, "", ""). -/
def rowSize : Nat :=
  match Row.new 0 [] [] with
  | some r => (serializeRow r).length
  | none => 0

/-- The Table struct from the source. -/
structure Table where
  pager : Pager
  nb_rows : Nat
  row_size : Nat
deriving DecidableEq

/-- Table::new from the source, including its approximate recovery of
nb_rows from the byte length of the backing store observed at open
time. -/
def Table.new (pager : Pager) : Table :=
  let row_size := rowSize
  let rows_per_page := PAGE_SIZE / row_size
  let np := pager.get_nb_pages
  let full_pages := max np.1 1 - 1
  let rows := full_pages * rows_per_page
  ⟨pager, (rows + np.2) / row_size, row_size⟩

/-- Table::get_row_per_page from the source. -/
def Table.get_row_per_page (t : Table) : Nat := PAGE_SIZE / t.row_size

/-- Table::get_page_id from the source. -/
def Table.get_page_id (t : Table) (row_id : Nat) : Nat :=
  row_id / t.get_row_per_page

/-- Table::get_row_offset from the source. -/
def Table.get_row_offset (t : Table) (row_id : Nat) : Nat :=
  (row_id % t.get_row_per_page) * t.row_size

/-- Table::is_full from the source. -/
def Table.is_full (t : Table) : Prop :=
  t.nb_rows = t.get_row_per_page * TABLE_MAX_PAGES

instance (t : Table) : Decidable t.is_full := by unfold Table.is_full; infer_instance

/-- Table::insert_row from the source: reject when full; serialize the
row; address the slot by the row's own id; load the owning page
(crash on out-of-bounds page index); write the bytes; on success
increment nb_rows.  The returned Table is the post-state (unchanged on
the TableFull path, page materialized but count unchanged on a failed
page write). -/
def Table.insert_row (t : Table) (row : Row) : Outcome Unit × Table :=
  if t.is_full then (.err "Table is full", t)
  else
    let row_bytes := serializeRow row
    let page_id := t.get_page_id row.id
    let offset := t.get_row_offset row.id
    match t.pager.load_page page_id with
    | none => (.crash, t)
    | some (page, pg) =>
      match page.write offset row_bytes with
      | .ok page' =>
        (.ok (), ⟨{ pg with pages := pg.pages.set page_id (some page') },
          t.nb_rows + 1, t.row_size⟩)
      | .error _ =>
        (.err "failed to copy to page", ⟨pg, t.nb_rows, t.row_size⟩)

/-- The loop body of Table::select_row over a list of logical row
indices: for each index recompute (page, offset), load the page
(unwrap: crash on failure), slice row_size bytes and bincode
deserialize them (unwrap: crash on failure). -/
def Table.select_from (t : Table) : List Nat → Outcome (List Row) × Table
  | [] => (.ok [], t)
  | i :: rest =>
    match t.pager.load_page (t.get_page_id i) with
    | none => (.crash, t)
    | some (page, pg) =>
      let offset := t.get_row_offset i
      match deserializeRow ((page.bytes.drop offset).take t.row_size) with
      | none => (.crash, ⟨pg, t.nb_rows, t.row_size⟩)
      | some row =>
        match Table.select_from ⟨pg, t.nb_rows, t.row_size⟩ rest with
        | (.ok rows, t') => (.ok (row :: rows), t')
        | other => other

/-- Table::select_row from the source: decode the slot of every
logical index 0..nb_rows in ascending order. -/
def Table.select_row (t : Table) : Outcome (List Row) × Table :=
  t.select_from (List.range t.nb_rows)

/-- Insert a list of rows in order, stopping at the first failure
(as the command loop would observe a failure and each test inserts
sequentially). -/
def Table.insertAll (t : Table) : List Row → Outcome Unit × Table
  | [] => (.ok (), t)
  | r :: rs =>
    match t.insert_row r with
    | (.ok _, t') => t'.insertAll rs
    | other => other

/-- A fresh Table over an empty backing store. -/
def freshTable : Table := Table.new (Pager.new [])

def fooRow : Row :=
  match Row.new 0 ['f', 'o', 'o'] ['b', 'a', 'r'] with
  | some r => r
  | none => ⟨0, [], []⟩

def tableAfterFoo : Table := (freshTable.insert_row fooRow).2

def reopenedTable : Table := Table.new (Pager.new tableAfterFoo.pager.teardown)

def aliceRow : Row :=
  match Row.new 1 ['a', 'l', 'i', 'c', 'e']
      ['a', 'l', 'i', 'c', 'e', '@', 'e', 'x', 'a', 'm', 'p', 'l', 'e', '.', 'c', 'o', 'm'] with
  | some r => r
  | none => ⟨0, [], []⟩

def tableAfterAlice : Table := (freshTable.insert_row aliceRow).2

def aliceSlot : Option Row :=
  match tableAfterAlice.pager.pages.getD 0 none with
  | some page => deserializeRow ((page.bytes.drop 307).take 307)
  | none => none

def overflowRow : Row :=
  match Row.new 1300 [] [] with
  | some r => r
  | none => ⟨0, [], []⟩

def splitName : List Char := List.replicate 31 'a' ++ ['¢']

def paddedAB : Row := ⟨1, 'a' :: List.replicate 31 ' ', 'b' :: List.replicate 254 ' '⟩

def blankRows : Nat → Row := fun i => ⟨i, List.replicate 32 ' ', List.replicate 255 ' '⟩

theorem decodeUtf8_cons1 (b0 : Nat) (r : List Nat) (h : b0 < 0x80) :
    decodeUtf8 (b0 :: r) = (decodeUtf8 r).map (fun cs => Char.ofNat b0 :: cs) := by
  rw [decodeUtf8.eq_def]
  simp only
  rw [if_pos h]

theorem decodeUtf8_cons2 (b0 b1 : Nat) (r : List Nat)
    (h0 : 0xC2 ≤ b0) (h1 : b0 < 0xE0) (hc : contByte b1) :
    decodeUtf8 (b0 :: b1 :: r) =
      (decodeUtf8 r).map (fun cs => Char.ofNat ((b0 - 0xC0) * 0x40 + (b1 - 0x80)) :: cs) := by
  rw [decodeUtf8.eq_def]
  simp only
  rw [if_neg (by omega), if_neg (by omega), if_pos h1, if_pos hc]

theorem decodeUtf8_cons3 (b0 b1 b2 : Nat) (r : List Nat)
    (h0 : 0xE0 ≤ b0) (h1 : b0 < 0xF0) (hc1 : contByte b1)
    (hc2 : contByte b2) (hv1 : b0 = 0xE0 → 0xA0 ≤ b1) (hv2 : b0 = 0xED → b1 < 0xA0) :
    decodeUtf8 (b0 :: b1 :: b2 :: r) =
      (decodeUtf8 r).map (fun cs =>
        Char.ofNat ((b0 - 0xE0) * 0x1000 + (b1 - 0x80) * 0x40 + (b2 - 0x80)) :: cs) := by
  rw [decodeUtf8.eq_def]
  simp only
  have hcond : contByte b1 ∧ contByte b2 ∧ (b0 = 0xE0 → 0xA0 ≤ b1) ∧
      (b0 = 0xED → b1 < 0xA0) := ⟨hc1, hc2, hv1, hv2⟩
  rw [if_neg (by omega), if_neg (by omega), if_neg (by omega), if_pos h1, if_pos hcond]

theorem decodeUtf8_cons4 (b0 b1 b2 b3 : Nat) (r : List Nat)
    (h0 : 0xF0 ≤ b0) (h1 : b0 < 0xF5) (hc1 : contByte b1)
    (hc2 : contByte b2) (hc3 : contByte b3)
    (hv1 : b0 = 0xF0 → 0x90 ≤ b1) (hv2 : b0 = 0xF4 → b1 < 0x90) :
    decodeUtf8 (b0 :: b1 :: b2 :: b3 :: r) =
      (decodeUtf8 r).map (fun cs =>
        Char.ofNat ((b0 - 0xF0) * 0x40000 + (b1 - 0x80) * 0x1000 +
          (b2 - 0x80) * 0x40 + (b3 - 0x80)) :: cs) := by
  rw [decodeUtf8.eq_def]
  simp only
  have hcond : contByte b1 ∧ contByte b2 ∧ contByte b3 ∧ (b0 = 0xF0 → 0x90 ≤ b1) ∧
      (b0 = 0xF4 → b1 < 0x90) := ⟨hc1, hc2, hc3, hv1, hv2⟩
  rw [if_neg (by omega), if_neg (by omega), if_neg (by omega), if_neg (by omega),
    if_pos h1, if_pos hcond]

theorem char_valid (c : Char) : c.toNat < 0xD800 ∨ (0xDFFF < c.toNat ∧ c.toNat < 0x110000) :=
  c.valid

theorem decodeUtf8_utf8Bytes (c : Char) (rest : List Nat) :
    decodeUtf8 (utf8Bytes c ++ rest) = (decodeUtf8 rest).map (fun cs => c :: cs) := by
  have hv := char_valid c
  have hofn : Char.ofNat c.toNat = c := Char.ofNat_toNat c
  by_cases h1 : c.toNat < 0x80
  · have hb : utf8Bytes c = [c.toNat] := by
      simp only [utf8Bytes]
      rw [if_pos h1]
    rw [hb, List.cons_append, List.nil_append, decodeUtf8_cons1 _ _ h1, hofn]
  · by_cases h2 : c.toNat < 0x800
    · have hb : utf8Bytes c = [0xC0 + c.toNat / 0x40, 0x80 + c.toNat % 0x40] := by
        simp only [utf8Bytes]
        rw [if_neg h1, if_pos h2]
      rw [hb, List.cons_append, List.cons_append, List.nil_append,
        decodeUtf8_cons2 _ _ _ (by omega) (by omega) (by constructor <;> omega)]
      have harith : (0xC0 + c.toNat / 0x40 - 0xC0) * 0x40 + (0x80 + c.toNat % 0x40 - 0x80)
          = c.toNat := by omega
      rw [harith, hofn]
    · by_cases h3 : c.toNat < 0x10000
      · have hb : utf8Bytes c = [0xE0 + c.toNat / 0x1000, 0x80 + c.toNat / 0x40 % 0x40,
            0x80 + c.toNat % 0x40] := by
          simp only [utf8Bytes]
          rw [if_neg h1, if_neg h2, if_pos h3]
        rw [hb, List.cons_append, List.cons_append, List.cons_append, List.nil_append,
          decodeUtf8_cons3 _ _ _ _ (by omega) (by omega) (by constructor <;> omega)
            (by constructor <;> omega) (by omega) (by omega)]
        have harith : (0xE0 + c.toNat / 0x1000 - 0xE0) * 0x1000 +
            (0x80 + c.toNat / 0x40 % 0x40 - 0x80) * 0x40 + (0x80 + c.toNat % 0x40 - 0x80)
            = c.toNat := by omega
        rw [harith, hofn]
      · have hb : utf8Bytes c = [0xF0 + c.toNat / 0x40000, 0x80 + c.toNat / 0x1000 % 0x40,
            0x80 + c.toNat / 0x40 % 0x40, 0x80 + c.toNat % 0x40] := by
          simp only [utf8Bytes]
          rw [if_neg h1, if_neg h2, if_neg h3]
        rw [hb, List.cons_append, List.cons_append, List.cons_append, List.cons_append,
          List.nil_append,
          decodeUtf8_cons4 _ _ _ _ _ (by omega) (by omega) (by constructor <;> omega)
            (by constructor <;> omega) (by constructor <;> omega) (by omega) (by omega)]
        have harith : (0xF0 + c.toNat / 0x40000 - 0xF0) * 0x40000 +
            (0x80 + c.toNat / 0x1000 % 0x40 - 0x80) * 0x1000 +
            (0x80 + c.toNat / 0x40 % 0x40 - 0x80) * 0x40 + (0x80 + c.toNat % 0x40 - 0x80)
            = c.toNat := by omega
        rw [harith, hofn]

theorem decodeUtf8_strBytes (s : List Char) (rest : List Nat) :
    decodeUtf8 (strBytes s ++ rest) = (decodeUtf8 rest).map (fun cs => s ++ cs) := by
  induction s with
  | nil => simp [strBytes]
  | cons c cs ih =>
    have : strBytes (c :: cs) = utf8Bytes c ++ strBytes cs := by
      simp [strBytes]
    rw [this, List.append_assoc, decodeUtf8_utf8Bytes, ih, Option.map_map]
    rfl

theorem decodeUtf8_strBytes_nil (s : List Char) :
    decodeUtf8 (strBytes s) = some s := by
  have h := decodeUtf8_strBytes s []
  have hnil : decodeUtf8 [] = some [] := rfl
  rw [List.append_nil] at h
  rw [h, hnil]
  simp

theorem utf8Bytes_length (c : Char) : (utf8Bytes c).length = utf8Len c := by
  simp only [utf8Bytes, utf8Len]
  split_ifs <;> rfl

theorem strBytes_length (s : List Char) : (strBytes s).length = byteLen s := by
  induction s with
  | nil => rfl
  | cons c cs ih =>
    have h : strBytes (c :: cs) = utf8Bytes c ++ strBytes cs := by simp [strBytes]
    simp [h, byteLen, ih, utf8Bytes_length]

theorem byteLen_append (s t : List Char) : byteLen (s ++ t) = byteLen s + byteLen t := by
  simp [byteLen]

theorem leBytes_length (n w : Nat) : (leBytes n w).length = w := by
  induction w generalizing n with
  | zero => rfl
  | succ w ih => simp [leBytes, ih]

theorem leVal_leBytes (n w : Nat) : leVal (leBytes n w) = n % 256 ^ w := by
  induction w generalizing n with
  | zero => simp [leBytes, leVal, Nat.mod_one]
  | succ w ih =>
    rw [leBytes, leVal, ih]
    have h256 : 256 ^ (w + 1) = 256 * 256 ^ w := by ring
    rw [h256, Nat.mod_mul]

theorem readLE_append (n w : Nat) (rest : List Nat) :
    readLE (leBytes n w ++ rest) w = some (n % 256 ^ w, rest) := by
  have hlen : (leBytes n w).length = w := leBytes_length n w
  rw [readLE, if_pos (by simp [hlen])]
  rw [List.take_left' hlen, List.drop_left' hlen, leVal_leBytes]

theorem deserializeRow_serializeRow (r : Row) (extra : List Nat)
    (hid : r.id < 2 ^ 32) (hu : byteLen r.username < 2 ^ 64) (he : byteLen r.email < 2 ^ 64) :
    deserializeRow (serializeRow r ++ extra) = some r := by
  have hids : r.id % 256 ^ 4 = r.id := Nat.mod_eq_of_lt (by norm_num; norm_num at hid; omega)
  have hus : byteLen r.username % 256 ^ 8 = byteLen r.username :=
    Nat.mod_eq_of_lt (by norm_num; norm_num at hu; omega)
  have hes : byteLen r.email % 256 ^ 8 = byteLen r.email :=
    Nat.mod_eq_of_lt (by norm_num; norm_num at he; omega)
  have e1 : serializeRow r ++ extra =
      leBytes r.id 4 ++ (leBytes (byteLen r.username) 8 ++ (strBytes r.username ++
        (leBytes (byteLen r.email) 8 ++ (strBytes r.email ++ extra)))) := by
    simp [serializeRow, List.append_assoc]
  have ht1 : (strBytes r.username ++ (leBytes (byteLen r.email) 8 ++
      (strBytes r.email ++ extra))).take (byteLen r.username) = strBytes r.username :=
    List.take_left' (strBytes_length _)
  have hd1 : (strBytes r.username ++ (leBytes (byteLen r.email) 8 ++
      (strBytes r.email ++ extra))).drop (byteLen r.username) =
      leBytes (byteLen r.email) 8 ++ (strBytes r.email ++ extra) :=
    List.drop_left' (strBytes_length _)
  have ht2 : (strBytes r.email ++ extra).take (byteLen r.email) = strBytes r.email :=
    List.take_left' (strBytes_length _)
  have hg1 : byteLen r.username ≤ (strBytes r.username ++ (leBytes (byteLen r.email) 8 ++
      (strBytes r.email ++ extra))).length := by
    simp [strBytes_length]
  have hg2 : byteLen r.email ≤ (strBytes r.email ++ extra).length := by
    simp [strBytes_length]
  rw [e1, deserializeRow, readLE_append]
  simp only [hids]
  rw [readLE_append]
  simp only [hus]
  rw [if_pos hg1, ht1, decodeUtf8_strBytes_nil, hd1, readLE_append]
  simp only [hes]
  rw [if_pos hg2, ht2, decodeUtf8_strBytes_nil]

theorem utf8Len_pos (c : Char) : 1 ≤ utf8Len c := by
  simp only [utf8Len]
  split_ifs <;> norm_num

theorem byteLen_cons (c : Char) (cs : List Char) :
    byteLen (c :: cs) = utf8Len c + byteLen cs := by
  simp [byteLen]

theorem byteLen_replicate (k : Nat) (c : Char) :
    byteLen (List.replicate k c) = k * utf8Len c := by
  induction k with
  | zero => simp [byteLen]
  | succ k ih => simp [List.replicate_succ, byteLen_cons, ih]; ring

theorem truncChars_of_le (s : List Char) (n : Nat) (h : byteLen s ≤ n) :
    truncChars s n = some s := by
  induction s generalizing n with
  | nil => rfl
  | cons c cs ih =>
    rw [byteLen_cons] at h
    have hpos := utf8Len_pos c
    rw [truncChars, if_neg (by omega), if_pos (by omega), ih (n - utf8Len c) (by omega)]
    rfl

theorem truncChars_le (s : List Char) (n : Nat) (t : List Char)
    (h : truncChars s n = some t) : byteLen t ≤ n := by
  induction s generalizing n t with
  | nil =>
    simp only [truncChars, Option.some.injEq] at h
    subst h
    simp [byteLen]
  | cons c cs ih =>
    rw [truncChars] at h
    by_cases h0 : n = 0
    · rw [if_pos h0] at h
      simp only [Option.some.injEq] at h
      subst h
      simp [byteLen]
    · rw [if_neg h0] at h
      by_cases h1 : utf8Len c ≤ n
      · rw [if_pos h1] at h
        match ht : truncChars cs (n - utf8Len c) with
        | none => rw [ht] at h; simp at h
        | some t' =>
          rw [ht] at h
          simp only [Option.map_some', Option.some.injEq] at h
          subst h
          have := ih (n - utf8Len c) t' ht
          rw [byteLen_cons]
          omega
      · rw [if_neg h1] at h
        simp at h

theorem pad_string_byteLen (s : List Char) (n : Nat) (t : List Char)
    (h : pad_string s n = some t) : byteLen t = n := by
  rw [pad_string] at h
  match ht : truncChars s n with
  | none => rw [ht] at h; simp at h
  | some t0 =>
    rw [ht] at h
    simp only [Option.map_some', Option.some.injEq] at h
    subst h
    have hle := truncChars_le s n t0 ht
    rw [byteLen_append, byteLen_replicate]
    have : utf8Len ' ' = 1 := by decide
    rw [this]
    omega

theorem pad_string_of_le (s : List Char) (n : Nat) (h : byteLen s ≤ n) :
    pad_string s n = some (s ++ List.replicate (n - byteLen s) ' ') := by
  rw [pad_string, truncChars_of_le s n h]
  rfl

theorem dropWhile_replicate_space (k : Nat) (y : List Char) :
    (List.replicate k ' ' ++ y).dropWhile isRustWhitespace =
      y.dropWhile isRustWhitespace := by
  induction k with
  | zero => rfl
  | succ k ih =>
    rw [List.replicate_succ, List.cons_append, List.dropWhile_cons,
      if_pos (by decide), ih]

theorem trimEnd_append_spaces (s : List Char) (k : Nat) :
    trimEnd (s ++ List.replicate k ' ') = trimEnd s := by
  rw [trimEnd, trimEnd, List.reverse_append, List.reverse_replicate,
    dropWhile_replicate_space]

theorem rustTrim_append_spaces (s : List Char) (k : Nat) :
    rustTrim (s ++ List.replicate k ' ') = rustTrim s := by
  rw [rustTrim, rustTrim, trimEnd_append_spaces]

theorem Row.new_some (id : Nat) (u e : List Char) (r : Row)
    (h : Row.new id u e = some r) :
    r.id = id ∧ pad_string u COLUMN_USERNAME_SIZE = some r.username ∧
      pad_string e COLUMN_EMAIL_SIZE = some r.email := by
  rw [Row.new] at h
  match hu : pad_string u COLUMN_USERNAME_SIZE, he : pad_string e COLUMN_EMAIL_SIZE with
  | some u', some e' =>
    rw [hu, he] at h
    simp only [Option.some.injEq] at h
    subst h
    exact ⟨rfl, rfl, rfl⟩
  | some _, none => rw [hu, he] at h; simp at h
  | none, _ => rw [hu] at h; simp at h

theorem load_page_ok (pg : Pager) (page_id : Nat) (h : page_id < pg.pages.length) :
    ∃ page pg', pg.load_page page_id = some (page, pg') ∧
      pg'.pages.length = pg.pages.length := by
  rw [Pager.load_page, dif_pos h]
  cases hpg : pg.pages.get ⟨page_id, h⟩ with
  | none => exact ⟨_, _, rfl, by simp [List.length_set]⟩
  | some page => exact ⟨page, pg, rfl, rfl⟩

theorem serializeRow_length (r : Row) :
    (serializeRow r).length = 4 + 8 + byteLen r.username + 8 + byteLen r.email := by
  simp [serializeRow, leBytes_length, strBytes_length]
  omega

theorem insert_row_ok (t : Table) (r : Row)
    (hrs : t.row_size = 307) (hpl : t.pager.pages.length = 100)
    (hnb : t.nb_rows < 1300) (hid : r.id < 1300)
    (hu : byteLen r.username = 32) (he : byteLen r.email = 255) :
    ∃ t', t.insert_row r = (.ok (), t') ∧ t'.nb_rows = t.nb_rows + 1 ∧
      t'.row_size = 307 ∧ t'.pager.pages.length = 100 := by
  have hrpp : t.get_row_per_page = 13 := by
    rw [Table.get_row_per_page, hrs]
    decide
  have hfull : ¬ t.is_full := by
    rw [Table.is_full, hrpp, TABLE_MAX_PAGES]
    omega
  have hlenb : (serializeRow r).length = 307 := by
    rw [serializeRow_length, hu, he]
  have hpid : t.get_page_id r.id < 100 := by
    rw [Table.get_page_id, hrpp]
    omega
  have hoff : t.get_row_offset r.id + 307 ≤ 4096 := by
    rw [Table.get_row_offset, hrpp, hrs]
    have := Nat.mod_lt r.id (show 0 < 13 by norm_num)
    omega
  obtain ⟨page, pg', hload, hlen'⟩ := load_page_ok t.pager (t.get_page_id r.id) (by omega)
  rw [Table.insert_row, if_neg hfull]
  simp only [hload]
  rw [Page.write, if_neg (show ¬((serializeRow r).length + t.get_row_offset r.id > PAGE_SIZE) by
    rw [hlenb, PAGE_SIZE]; omega)]
  exact ⟨_, rfl, rfl, hrs, by simp [List.length_set, hlen', hpl]⟩

theorem insert_row_full (t : Table) (r : Row) (h : t.is_full) :
    t.insert_row r = (.err "Table is full", t) := by
  rw [Table.insert_row, if_pos h]

theorem insertAll_ok (l : List Row) (t : Table)
    (hrs : t.row_size = 307) (hpl : t.pager.pages.length = 100)
    (hnb : t.nb_rows + l.length ≤ 1300)
    (hl : ∀ r ∈ l, r.id < 1300 ∧ byteLen r.username = 32 ∧ byteLen r.email = 255) :
    ∃ t', t.insertAll l = (.ok (), t') ∧ t'.nb_rows = t.nb_rows + l.length ∧
      t'.row_size = 307 ∧ t'.pager.pages.length = 100 := by
  induction l generalizing t with
  | nil => exact ⟨t, rfl, by simp, hrs, hpl⟩
  | cons r rs ih =>
    obtain ⟨hid, hu, he⟩ := hl r (by simp)
    obtain ⟨t', hstep, hnb', hrs', hpl'⟩ :=
      insert_row_ok t r hrs hpl (by simp at hnb; omega) hid hu he
    obtain ⟨t'', hall, hnb'', hrs'', hpl''⟩ :=
      ih t' hrs' hpl' (by simp at hnb ⊢; omega) (fun x hx => hl x (by simp [hx]))
    refine ⟨t'', ?_, ?_, hrs'', hpl''⟩
    · simp only [Table.insertAll, hstep, hall]
    · rw [hnb'', hnb']
      simp
      omega

theorem writeSlice_length (buf : List Nat) (off : Nat) (data : List Nat)
    (h : off + data.length ≤ buf.length) :
    (writeSlice buf off data).length = buf.length := by
  simp [writeSlice, List.length_take, List.length_drop]
  omega

theorem writeSlice_getElem_lt (buf : List Nat) (off : Nat) (data : List Nat) (i : Nat)
    (h : off ≤ buf.length) (hi : i < off) :
    (writeSlice buf off data)[i]? = buf[i]? := by
  have hlt : (buf.take off).length = off := by simp [List.length_take]; omega
  rw [writeSlice, List.getElem?_append_left (by simp [hlt]; omega),
    List.getElem?_append_left (by omega), List.getElem?_take, if_pos hi]

theorem writeSlice_getElem_mid (buf : List Nat) (off : Nat) (data : List Nat) (j : Nat)
    (h : off ≤ buf.length) (hj : j < data.length) :
    (writeSlice buf off data)[off + j]? = data[j]? := by
  have hlt : (buf.take off).length = off := by simp [List.length_take]; omega
  rw [writeSlice, List.getElem?_append_left (by simp [hlt]; omega),
    List.getElem?_append_right (by omega), hlt]
  congr 1
  omega

theorem writeSlice_getElem_ge (buf : List Nat) (off : Nat) (data : List Nat) (i : Nat)
    (h : off ≤ buf.length) (hi : off + data.length ≤ i) :
    (writeSlice buf off data)[i]? = buf[i]? := by
  have hlt : (buf.take off).length = off := by simp [List.length_take]; omega
  have hlen2 : (buf.take off ++ data).length = off + data.length := by
    simp [hlt]
  rw [writeSlice, List.getElem?_append_right (by rw [hlen2]; omega), hlen2,
    List.getElem?_drop]
  congr 1
  omega

theorem page_write_ok_shape (p : Page) (off : Nat) (data : List Nat) (p' : Page)
    (h : p.write off data = .ok p') :
    p' = ⟨writeSlice p.bytes off data, max (off + data.length) p.end_offset⟩ ∧
      data.length + off ≤ PAGE_SIZE := by
  rw [Page.write] at h
  by_cases hc : data.length + off > PAGE_SIZE
  · rw [if_pos hc] at h
    exact absurd h (by simp)
  · rw [if_neg hc] at h
    simp only [Except.ok.injEq] at h
    exact ⟨h.symm, by omega⟩

theorem applyWrite_mono (p : Page) (op : Nat × List Nat) :
    p.end_offset ≤ (applyWrite p op).end_offset := by
  rw [applyWrite]
  cases hw : p.write op.1 op.2 with
  | error e => exact Nat.le_refl _
  | ok p' =>
    obtain ⟨hp', _⟩ := page_write_ok_shape _ _ _ _ hw
    subst hp'
    exact le_max_right _ _

theorem applyWrite_le (p : Page) (op : Nat × List Nat) (h : p.end_offset ≤ PAGE_SIZE) :
    (applyWrite p op).end_offset ≤ PAGE_SIZE := by
  rw [applyWrite]
  cases hw : p.write op.1 op.2 with
  | error e => exact h
  | ok p' =>
    obtain ⟨hp', hlen⟩ := page_write_ok_shape _ _ _ _ hw
    subst hp'
    exact max_le (by omega) h

theorem foldl_applyWrite_le (ops : List (Nat × List Nat)) (p : Page)
    (h : p.end_offset ≤ PAGE_SIZE) :
    (ops.foldl applyWrite p).end_offset ≤ PAGE_SIZE := by
  induction ops generalizing p with
  | nil => exact h
  | cons op ops ih => exact ih (applyWrite p op) (applyWrite_le p op h)

set_option maxRecDepth 300000 in
/-- Claim C1 (code_bug evidence): the persistence round trip fails.  Over an
empty backing store, inserting Row::new(0, "foo", "bar") and enumerating
yields that row; after tearing down the Pager (flushing page 0) and opening
a new Table over the flushed store, enumeration again yields one record, but
it is the all-zero decode, not the inserted row, because load_page refuses
to read the last page of the file extent. -/
theorem persistence_lost :
    (freshTable.insert_row fooRow).1 = .ok () ∧
    (tableAfterFoo.select_row).1 = .ok [fooRow] ∧
    reopenedTable.nb_rows = 1 ∧
    (reopenedTable.select_row).1 = .ok [⟨0, [], []⟩] ∧
    (reopenedTable.select_row).1 ≠ (tableAfterFoo.select_row).1 := by
  decide

set_option maxRecDepth 300000 in
/-- Claim C2 (code_bug evidence): for a backing store of 100 nonzero bytes,
page 0 lies within the byte extent observed at open time, and the claim says
load(0) reads those bytes from offset 0; the code instead returns an
all-zero buffer for any unmaterialized page with page_id + 1 not below
num_pages, i.e. it never reads the last page of the extent. -/
theorem load_page_skips_last_page :
    (Pager.new (List.replicate 100 1)).file_size = 100 ∧
    0 * PAGE_SIZE < (Pager.new (List.replicate 100 1)).file_size ∧
    (storeRead (List.replicate 100 1) (0 * PAGE_SIZE) PAGE_SIZE).take 100 =
      List.replicate 100 1 ∧
    ((Pager.new (List.replicate 100 1)).load_page 0).map (fun pr => pr.1.bytes.take 100) =
      some (List.replicate 100 0) ∧
    ((Pager.new (List.replicate 100 1)).load_page 0).map (fun pr => pr.1.bytes.take 100) ≠
      some ((storeRead (List.replicate 100 1) (0 * PAGE_SIZE) PAGE_SIZE).take 100) := by
  decide

set_option maxRecDepth 300000 in
/-- Claim C3 counterexample: after insert(1, "alice", "alice@example.com")
on a fresh table over an empty store, enumeration yields one record, but it
is the all-zero record with id 0, not the alice record (neither in padded
nor in trimmed form): the insert wrote the slot addressed by id 1 while
enumeration reads logical index 0. -/
theorem select_reads_index_not_id :
    (freshTable.insert_row aliceRow).1 = .ok () ∧
    aliceRow.id = 1 ∧
    (tableAfterAlice.select_row).1 = .ok [⟨0, [], []⟩] ∧
    (tableAfterAlice.select_row).1 ≠ .ok [aliceRow] ∧
    (tableAfterAlice.select_row).1 ≠ .ok [Row.trimmed aliceRow] := by
  decide

set_option maxRecDepth 300000 in
/-- Claim C3 (amended): after insert(1, "alice", "alice@example.com") on a
fresh table over an empty store, enumerate() yields exactly one record, and
that record is the all-zero decode with id 0, username "", email ""; the
inserted record itself sits in the slot for id 1 (byte offset 307 of page
0), which enumeration does not visit. -/
theorem select_after_insert_alice :
    tableAfterAlice.nb_rows = 1 ∧
    (tableAfterAlice.select_row).1 = .ok [⟨0, [], []⟩] ∧
    aliceSlot = some aliceRow := by
  decide

set_option maxRecDepth 300000 in
/-- Claim C4: starting from an empty Table, inserting records_per_page x 100
records with sequential ids 0..N-1 succeeds for every one of those inserts;
the very next insert fails with the TableFull error; and the failed insert
leaves the record count unchanged. -/
theorem capacity_boundary (rows : Nat → Row)
    (hid : ∀ i, (rows i).id = i)
    (hu : ∀ i, byteLen (rows i).username = 32)
    (he : ∀ i, byteLen (rows i).email = 255) :
    ∃ t : Table,
      freshTable.insertAll
          ((List.range (freshTable.get_row_per_page * TABLE_MAX_PAGES)).map rows) =
        (.ok (), t) ∧
      t.nb_rows = freshTable.get_row_per_page * TABLE_MAX_PAGES ∧
      (t.insert_row (rows (freshTable.get_row_per_page * TABLE_MAX_PAGES))).1 =
        .err "Table is full" ∧
      (t.insert_row (rows (freshTable.get_row_per_page * TABLE_MAX_PAGES))).2.nb_rows =
        freshTable.get_row_per_page * TABLE_MAX_PAGES := by
  have hN : freshTable.get_row_per_page * TABLE_MAX_PAGES = 1300 := by decide
  have hrs : freshTable.row_size = 307 := by decide
  have hpl : freshTable.pager.pages.length = 100 := by decide
  have hnb0 : freshTable.nb_rows = 0 := by decide
  rw [hN]
  obtain ⟨t, hall, hnb, hrs', hpl'⟩ :=
    insertAll_ok ((List.range 1300).map rows) freshTable hrs hpl
      (by simp [hnb0])
      (by
        intro r hr
        simp only [List.mem_map, List.mem_range] at hr
        obtain ⟨i, hi, hri⟩ := hr
        subst hri
        exact ⟨by rw [hid i]; omega, hu i, he i⟩)
  have hlen1300 : (List.map rows (List.range 1300)).length = 1300 := by
    simp
  have hfull : t.is_full := by
    rw [Table.is_full, Table.get_row_per_page, hrs', TABLE_MAX_PAGES, hnb, hnb0, hlen1300]
    decide
  refine ⟨t, hall, ?_, ?_, ?_⟩
  · rw [hnb, hnb0, hlen1300]
  · rw [insert_row_full t _ hfull]
  · rw [insert_row_full t _ hfull, hnb, hnb0, hlen1300]

set_option maxRecDepth 300000 in
/-- Witness for capacity_boundary at the concrete all-blank row family. -/
theorem capacity_boundary_witness :
    (blankRows 0).id = 0 ∧ byteLen (blankRows 0).username = 32 ∧
    byteLen (blankRows 0).email = 255 ∧
    (∃ t : Table,
      freshTable.insertAll
          ((List.range (freshTable.get_row_per_page * TABLE_MAX_PAGES)).map blankRows) =
        (.ok (), t) ∧
      t.nb_rows = freshTable.get_row_per_page * TABLE_MAX_PAGES ∧
      (t.insert_row (blankRows (freshTable.get_row_per_page * TABLE_MAX_PAGES))).1 =
        .err "Table is full" ∧
      (t.insert_row (blankRows (freshTable.get_row_per_page * TABLE_MAX_PAGES))).2.nb_rows =
        freshTable.get_row_per_page * TABLE_MAX_PAGES) :=
  ⟨rfl, by decide, by decide,
    capacity_boundary blankRows (fun i => rfl)
      (fun i => show byteLen (List.replicate 32 ' ') = 32 by decide)
      (fun i => show byteLen (List.replicate 255 ' ') = 255 by decide)⟩

/-- Claim C5: Page.write(offset, data) fails exactly when
offset + length(data) > 4096; on failure it returns the OutOfSpace error and
the page is left unmodified; on success the data bytes appear in the buffer
at the offset, all other bytes are unchanged, the buffer keeps its length,
and the high-water mark becomes max(offset + length(data), previous). -/
theorem page_write_spec (p : Page) (offset : Nat) (data : List Nat)
    (hbuf : p.bytes.length = PAGE_SIZE) :
    (offset + data.length > PAGE_SIZE →
      p.write offset data = .error "not enough space to write" ∧
        applyWrite p (offset, data) = p) ∧
    (offset + data.length ≤ PAGE_SIZE →
      ∃ p', p.write offset data = .ok p' ∧
        p'.bytes.length = PAGE_SIZE ∧
        p'.end_offset = max (offset + data.length) p.end_offset ∧
        (∀ i, i < offset → p'.bytes[i]? = p.bytes[i]?) ∧
        (∀ j, j < data.length → p'.bytes[offset + j]? = data[j]?) ∧
        (∀ i, offset + data.length ≤ i → p'.bytes[i]? = p.bytes[i]?)) := by
  constructor
  · intro hgt
    have herr : p.write offset data = .error "not enough space to write" := by
      rw [Page.write, if_pos (show data.length + offset > PAGE_SIZE by omega)]
    refine ⟨herr, ?_⟩
    rw [applyWrite, herr]
  · intro hle
    have hoff : offset ≤ p.bytes.length := by omega
    have hok : p.write offset data =
        .ok ⟨writeSlice p.bytes offset data, max (offset + data.length) p.end_offset⟩ := by
      rw [Page.write, if_neg (show ¬(data.length + offset > PAGE_SIZE) by omega)]
    refine ⟨⟨writeSlice p.bytes offset data, max (offset + data.length) p.end_offset⟩,
      hok, ?_, rfl, ?_, ?_, ?_⟩
    · exact (writeSlice_length p.bytes offset data (by omega)).trans hbuf
    · exact fun i hi => writeSlice_getElem_lt p.bytes offset data i hoff hi
    · exact fun j hj => writeSlice_getElem_mid p.bytes offset data j hoff hj
    · exact fun i hi => writeSlice_getElem_ge p.bytes offset data i hoff hi

set_option maxRecDepth 300000 in
/-- Witness for page_write_spec at a fresh zero page, offset 0, data [7]. -/
theorem page_write_spec_witness :
    (Page.new (List.replicate 4096 0)).bytes.length = PAGE_SIZE ∧
    ((0 + [(7 : Nat)].length > PAGE_SIZE →
      (Page.new (List.replicate 4096 0)).write 0 [7] = .error "not enough space to write" ∧
        applyWrite (Page.new (List.replicate 4096 0)) (0, [7]) =
          Page.new (List.replicate 4096 0)) ∧
    (0 + [(7 : Nat)].length ≤ PAGE_SIZE →
      ∃ p', (Page.new (List.replicate 4096 0)).write 0 [7] = .ok p' ∧
        p'.bytes.length = PAGE_SIZE ∧
        p'.end_offset = max (0 + [(7 : Nat)].length)
          (Page.new (List.replicate 4096 0)).end_offset ∧
        (∀ i, i < 0 → p'.bytes[i]? = (Page.new (List.replicate 4096 0)).bytes[i]?) ∧
        (∀ j, j < [(7 : Nat)].length → p'.bytes[0 + j]? = [(7 : Nat)][j]?) ∧
        (∀ i, 0 + [(7 : Nat)].length ≤ i →
          p'.bytes[i]? = (Page.new (List.replicate 4096 0)).bytes[i]?))) :=
  ⟨show (List.replicate 4096 (0 : Nat)).length = PAGE_SIZE by
      rw [List.length_replicate, PAGE_SIZE],
    page_write_spec (Page.new (List.replicate 4096 0)) 0 [7]
      (show (List.replicate 4096 (0 : Nat)).length = PAGE_SIZE by
        rw [List.length_replicate, PAGE_SIZE])⟩

/-- Claim C6 (amended): for every record construction Row::new(id, u, e)
that does not panic, decoding the encoding of the stored row yields the same
numeric id together with the canonicalized (truncated, padded, then trimmed)
form of the fields; and when the fields are within their caps and are
unchanged by whitespace trimming, decode(encode(r)) is exactly the record
(id, u, e). -/
theorem codec_roundtrip_canonical (id : Nat) (u e : List Char) (r : Row)
    (hid : id < 2 ^ 32) (hnew : Row.new id u e = some r) :
    decodeRecord (serializeRow r) = some ⟨id, rustTrim r.username, rustTrim r.email⟩ ∧
    (byteLen u ≤ COLUMN_USERNAME_SIZE → byteLen e ≤ COLUMN_EMAIL_SIZE →
      rustTrim u = u → rustTrim e = e →
      decodeRecord (serializeRow r) = some ⟨id, u, e⟩) := by
  obtain ⟨hrid, hupad, hepad⟩ := Row.new_some id u e r hnew
  have hul : byteLen r.username = COLUMN_USERNAME_SIZE := pad_string_byteLen _ _ _ hupad
  have hel : byteLen r.email = COLUMN_EMAIL_SIZE := pad_string_byteLen _ _ _ hepad
  have hdser : deserializeRow (serializeRow r) = some r := by
    have h := deserializeRow_serializeRow r [] (by rw [hrid]; exact hid)
      (by rw [hul, COLUMN_USERNAME_SIZE]; norm_num)
      (by rw [hel, COLUMN_EMAIL_SIZE]; norm_num)
    rwa [List.append_nil] at h
  have hmain : decodeRecord (serializeRow r) =
      some ⟨id, rustTrim r.username, rustTrim r.email⟩ := by
    rw [decodeRecord, hdser, Option.map_some']
    rw [Row.trimmed, hrid]
  refine ⟨hmain, fun hule hele hutr hetr => ?_⟩
  have hu' : r.username = u ++ List.replicate (COLUMN_USERNAME_SIZE - byteLen u) ' ' := by
    have := pad_string_of_le u COLUMN_USERNAME_SIZE hule
    rw [this] at hupad
    exact (Option.some.injEq _ _).mp hupad.symm
  have he' : r.email = e ++ List.replicate (COLUMN_EMAIL_SIZE - byteLen e) ' ' := by
    have := pad_string_of_le e COLUMN_EMAIL_SIZE hele
    rw [this] at hepad
    exact (Option.some.injEq _ _).mp hepad.symm
  rw [hmain, hu', he', rustTrim_append_spaces, rustTrim_append_spaces, hutr, hetr]

set_option maxRecDepth 10000 in
/-- Claim C6 counterexample: the record (7, "a ", "b") has fields within the
32/255-byte caps, yet decode(encode(r)) returns (7, "a", "b"): the trailing
space of the username is indistinguishable from padding and is removed by
trimming, so decode(encode(r)) differs from r. -/
theorem codec_trim_cex :
    byteLen ['a', ' '] ≤ COLUMN_USERNAME_SIZE ∧
    byteLen ['b'] ≤ COLUMN_EMAIL_SIZE ∧
    ((Row.new 7 ['a', ' '] ['b']).map serializeRow).bind decodeRecord =
      some ⟨7, ['a'], ['b']⟩ ∧
    ((Row.new 7 ['a', ' '] ['b']).map serializeRow).bind decodeRecord ≠
      some ⟨7, ['a', ' '], ['b']⟩ := by
  decide

set_option maxRecDepth 300000 in
/-- Witness for codec_roundtrip_canonical at Row::new(1, "a", "b"). -/
theorem codec_roundtrip_canonical_witness :
    1 < 2 ^ 32 ∧ Row.new 1 ['a'] ['b'] = some paddedAB ∧
    (decodeRecord (serializeRow paddedAB) =
      some ⟨1, rustTrim paddedAB.username, rustTrim paddedAB.email⟩ ∧
    (byteLen ['a'] ≤ COLUMN_USERNAME_SIZE → byteLen ['b'] ≤ COLUMN_EMAIL_SIZE →
      rustTrim ['a'] = ['a'] → rustTrim ['b'] = ['b'] →
      decodeRecord (serializeRow paddedAB) = some ⟨1, ['a'], ['b']⟩)) :=
  ⟨by decide, by decide,
    codec_roundtrip_canonical 1 ['a'] ['b'] paddedAB (by decide) (by decide)⟩

/-- Claim C7: any two rows produced by Row::new encode to byte blocks of
equal length, namely 307 bytes: a 4-byte id, an 8-byte length header
followed by the 32-byte padded username, and an 8-byte length header
followed by the 255-byte padded email. -/
theorem encode_constant_length (id1 : Nat) (u1 e1 : List Char) (r1 : Row)
    (id2 : Nat) (u2 e2 : List Char) (r2 : Row)
    (h1 : Row.new id1 u1 e1 = some r1) (h2 : Row.new id2 u2 e2 = some r2) :
    (serializeRow r1).length = (serializeRow r2).length ∧
    (serializeRow r1).length = 307 ∧
    serializeRow r1 = leBytes r1.id 4 ++ leBytes COLUMN_USERNAME_SIZE 8 ++
      strBytes r1.username ++ leBytes COLUMN_EMAIL_SIZE 8 ++ strBytes r1.email ∧
    (strBytes r1.username).length = COLUMN_USERNAME_SIZE ∧
    (strBytes r1.email).length = COLUMN_EMAIL_SIZE := by
  obtain ⟨_, hupad1, hepad1⟩ := Row.new_some id1 u1 e1 r1 h1
  obtain ⟨_, hupad2, hepad2⟩ := Row.new_some id2 u2 e2 r2 h2
  have hul1 : byteLen r1.username = COLUMN_USERNAME_SIZE := pad_string_byteLen _ _ _ hupad1
  have hel1 : byteLen r1.email = COLUMN_EMAIL_SIZE := pad_string_byteLen _ _ _ hepad1
  have hul2 : byteLen r2.username = COLUMN_USERNAME_SIZE := pad_string_byteLen _ _ _ hupad2
  have hel2 : byteLen r2.email = COLUMN_EMAIL_SIZE := pad_string_byteLen _ _ _ hepad2
  refine ⟨?_, ?_, ?_, ?_, ?_⟩
  · rw [serializeRow_length, serializeRow_length, hul1, hel1, hul2, hel2]
  · rw [serializeRow_length, hul1, hel1]
    rfl
  · rw [serializeRow, hul1, hel1]
  · rw [strBytes_length, hul1]
  · rw [strBytes_length, hel1]

set_option maxRecDepth 300000 in
/-- Witness for encode_constant_length at Row::new(1, "a", "b") and
Row::new(2, "", ""). -/
theorem encode_constant_length_witness :
    Row.new 1 ['a'] ['b'] = some paddedAB ∧ Row.new 2 [] [] = some (blankRows 2) ∧
    ((serializeRow paddedAB).length = (serializeRow (blankRows 2)).length ∧
    (serializeRow paddedAB).length = 307 ∧
    serializeRow paddedAB = leBytes paddedAB.id 4 ++ leBytes COLUMN_USERNAME_SIZE 8 ++
      strBytes paddedAB.username ++ leBytes COLUMN_EMAIL_SIZE 8 ++ strBytes paddedAB.email ∧
    (strBytes paddedAB.username).length = COLUMN_USERNAME_SIZE ∧
    (strBytes paddedAB.email).length = COLUMN_EMAIL_SIZE) :=
  ⟨by decide, by decide,
    encode_constant_length 1 ['a'] ['b'] paddedAB 2 [] [] (blankRows 2)
      (by decide) (by decide)⟩

/-- Claim C8: a Page's high-water mark never decreases under a write
operation, a write keeps it at or below PAGE_SIZE when it was at or below
PAGE_SIZE, and along any sequence of writes of a session starting from
Page::new the high-water mark always stays at most PAGE_SIZE. -/
theorem page_high_water_mark (p : Page) (op : Nat × List Nat) (data : List Nat)
    (ops : List (Nat × List Nat)) :
    p.end_offset ≤ (applyWrite p op).end_offset ∧
    (p.end_offset ≤ PAGE_SIZE → (applyWrite p op).end_offset ≤ PAGE_SIZE) ∧
    (ops.foldl applyWrite (Page.new data)).end_offset ≤ PAGE_SIZE :=
  ⟨applyWrite_mono p op, applyWrite_le p op,
    foldl_applyWrite_le ops (Page.new data) (Nat.zero_le _)⟩

/-- Witness for page_high_water_mark at a fresh zero page and a concrete
write sequence. -/
theorem page_high_water_mark_witness :
    (Page.new (List.replicate 4096 0)).end_offset ≤
      (applyWrite (Page.new (List.replicate 4096 0)) (0, [1, 2, 3])).end_offset ∧
    ((Page.new (List.replicate 4096 0)).end_offset ≤ PAGE_SIZE →
      (applyWrite (Page.new (List.replicate 4096 0)) (0, [1, 2, 3])).end_offset ≤ PAGE_SIZE) ∧
    (([(0, [9]), (5000, [1])] : List (Nat × List Nat)).foldl applyWrite
      (Page.new (List.replicate 16 5))).end_offset ≤ PAGE_SIZE :=
  page_high_water_mark (Page.new (List.replicate 4096 0)) (0, [1, 2, 3])
    (List.replicate 16 5) [(0, [9]), (5000, [1])]

set_option maxRecDepth 300000 in
/-- Claim C9: on a fresh (far from full) table, inserting a record whose id
divided by records_per_page reaches 100 indexes the 100-slot page vector out
of bounds and panics (crash outcome), rather than returning a value-level
error such as TableFull. -/
theorem insert_big_id_panics :
    ¬ freshTable.is_full ∧
    overflowRow.id / freshTable.get_row_per_page = 100 ∧
    freshTable.pager.pages.length = 100 ∧
    (freshTable.insert_row overflowRow).1 = .crash ∧
    (freshTable.insert_row overflowRow).1 ≠ .err "Table is full" := by
  decide

set_option maxRecDepth 10000 in
/-- Claim C10: a username of 33 UTF-8 bytes whose 32-byte cap falls strictly
inside its final two-byte character makes pad_string (String::truncate on a
non-boundary) panic during canonicalization, modelled as none, instead of
truncating the field to its cap. -/
theorem pad_string_panics_mid_char :
    byteLen (List.replicate 31 'a') = 31 ∧
    utf8Len '¢' = 2 ∧
    byteLen splitName = 33 ∧
    pad_string splitName COLUMN_USERNAME_SIZE = none ∧
    Row.new 7 splitName ['b'] = none := by
  decide
